import Mathlib

/-!
Verification of the session/access-control core of the node-mongoose-crud
service: the dual-token credential lifecycle (JWT access/refresh tokens),
role/ownership authorization, the sliding-window rate limiter, and the
read-through identity cache with event-driven invalidation.

The definitions below are a shallow embedding of the JavaScript source:
* `src/src/models/user.model.js` — user schema, `changedPasswordAfter`,
  `generateAccessToken`, `generateRefreshToken`, the `pre(/^find/)`
  active-only query filter;
* the auth middleware (`authenticate`, `authorize`, `verifyRefreshToken`,
  `isOwnerOrAdmin`) and the auth controller
  (`generateTokensAndSetCookies`, `logout`, password change);
* the sliding-window rate limiter (`createSlidingWindowLimiter`);
* the Redis cache service (`get`/`set`/`del`/`getOrSet`) and the
  `USER_UPDATED` event handler.

Machine integers: JS `Date.now()` timestamps are modelled as `Int`
(milliseconds) in the rate limiter and as `Nat` elsewhere (seconds for JWT
`iat`/`exp`, milliseconds for `passwordChangedAt`); none of the involved
arithmetic can overflow a JS double for realistic clock values.
A signed JWT string is modelled as the tuple of its payload, `iat`, `exp`
and the signing secret: HS256 signing is deterministic, so byte-equality
of token strings coincides with equality of these tuples, and signature
verification with a secret is modelled as comparing the `sig` field.
-/

/-- Claims of the JWT access token payload: `{ _id, email, role }` as signed
by `generateAccessToken` in `user.model.js`. -/
structure AccessClaims where
  uid : String
  email : String
  role : String
  deriving DecidableEq, Repr

/-- Claims of the JWT refresh token payload: `{ _id }` as signed by
`generateRefreshToken` in `user.model.js`. -/
structure RefreshClaims where
  uid : String
  deriving DecidableEq, Repr

/-- A signed JWT. `iat`/`exp` are in whole seconds as produced by
`jsonwebtoken`; `sig` records which secret the token was signed with
(HS256 signing is deterministic, so a token string is determined by this
tuple and two token strings are byte-equal iff the tuples are equal). -/
structure Jwt (C : Type) where
  claims : C
  iat : Nat
  exp : Nat
  sig : String
  deriving DecidableEq, Repr

/-- `config.jwt.accessTokenSecret` default from `config/index.js`. -/
def accessTokenSecret : String := "default_access_secret_change_in_production_32chars"

/-- `config.jwt.refreshTokenSecret` default from `config/index.js`. -/
def refreshTokenSecret : String := "default_refresh_secret_change_in_production_32chars"

/-- `config.jwt.accessTokenExpiry` default `'15m'`, in seconds. -/
def accessTokenExpiry : Nat := 15 * 60

/-- `config.jwt.refreshTokenExpiry` default `'7d'`, in seconds. -/
def refreshTokenExpiry : Nat := 7 * 24 * 60 * 60

/-- The subset of a mongoose `User` document relevant to the control plane:
`_id`, `email`, `role`, `isActive`, `passwordChangedAt` (milliseconds since
epoch, `null` allowed) and the stored `refreshToken` string. -/
structure UserDoc where
  uid : String
  email : String
  role : String
  isActive : Bool
  passwordChangedAt : Option Nat
  refreshToken : Option (Jwt RefreshClaims)
  deriving DecidableEq, Repr

/-- The record store: the `users` collection. -/
abbrev UserDb := List UserDoc

/-- `User.findById` as it actually behaves under the schema's
`pre(/^find/)` query middleware: `findById` delegates to `findOne`, whose
op matches `/^find/`, so without `includeInactive` and with no explicit
`isActive` in the query the middleware adds `isActive: { $ne: false }`.
Hence only documents with `isActive` true are found. -/
def findById (db : UserDb) (id : String) : Option UserDoc :=
  match db with
  | [] => none
  | u :: rest => if u.uid = id ∧ u.isActive = true then some u else findById rest id

/-- `userSchema.methods.changedPasswordAfter(tokenIssuedAt)`:
`parseInt(this.passwordChangedAt.getTime() / 1000, 10)` truncates the
millisecond timestamp to whole seconds (Nat division), and the result is
compared with strict `<` against the token's `iat`; `null`
`passwordChangedAt` returns `false`. -/
def changedPasswordAfter (passwordChangedAt : Option Nat) (tokenIssuedAt : Nat) : Bool :=
  match passwordChangedAt with
  | some pca => decide (tokenIssuedAt < pca / 1000)
  | none => false

/-- The typed failure taxonomy of the spec, one constructor per distinct
throw site of the middleware/controller:
`missingCredential` = 'Access/Refresh token is required',
`malformedCredential` = JsonWebTokenError ('Invalid ... token'),
`expiredCredential` = TokenExpiredError,
`subjectNotFound` = 'User not found or has been deleted' / the
user-lookup miss in `verifyRefreshToken`,
`accountInactive` = 'User account has been deactivated',
`staleCredential` = 'Password was changed. Please login again',
`revokedCredential` = 'Refresh token has been revoked',
`authenticationRequired` = 'Authentication required',
`forbidden` = role/ownership denial. -/
inductive AuthError where
  | missingCredential
  | malformedCredential
  | expiredCredential
  | subjectNotFound
  | accountInactive
  | staleCredential
  | revokedCredential
  | authenticationRequired
  | forbidden
  deriving DecidableEq, Repr

/-- Outcome of an authentication middleware: the attached `req.user`, or a
typed error. -/
inductive AuthResult where
  | ok (user : UserDoc)
  | err (e : AuthError)
  deriving DecidableEq, Repr

/-- The `authenticate` middleware (access-token verification): extract the
token; `jwt.verify` with the access secret (signature first, then expiry —
expired iff `exp ≤ now`); `User.findById` (with the active-only query
filter); the explicit `isActive` check; the `changedPasswordAfter` check
against `decoded.iat`. `now` is in seconds. -/
def authenticate (db : UserDb) (now : Nat) (token : Option (Jwt AccessClaims)) : AuthResult :=
  match token with
  | none => .err .missingCredential
  | some tok =>
    if tok.sig ≠ accessTokenSecret then .err .malformedCredential
    else if tok.exp ≤ now then .err .expiredCredential
    else
      match findById db tok.claims.uid with
      | none => .err .subjectNotFound
      | some user =>
        if user.isActive = false then .err .accountInactive
        else if changedPasswordAfter user.passwordChangedAt tok.iat then .err .staleCredential
        else .ok user

/-- The `verifyRefreshToken` middleware: `jwt.verify` with the refresh
secret; `User.findById(...).select('+refreshToken')` (the active-only
query filter still applies); the stored `user.refreshToken !== refreshToken`
byte-comparison (revocation check); the explicit `isActive` check.
There is no `changedPasswordAfter` check in this middleware. -/
def verifyRefreshToken (db : UserDb) (now : Nat) (token : Option (Jwt RefreshClaims)) :
    AuthResult :=
  match token with
  | none => .err .missingCredential
  | some tok =>
    if tok.sig ≠ refreshTokenSecret then .err .malformedCredential
    else if tok.exp ≤ now then .err .expiredCredential
    else
      match findById db tok.claims.uid with
      | none => .err .subjectNotFound
      | some user =>
        if user.refreshToken ≠ some tok then .err .revokedCredential
        else if user.isActive = false then .err .accountInactive
        else .ok user

/-- `userSchema.methods.generateAccessToken`, issued at time `now`
(seconds): payload `{ _id, email, role }`, signed with the access secret,
`expiresIn` 15 minutes. -/
def generateAccessToken (u : UserDoc) (now : Nat) : Jwt AccessClaims :=
  { claims := { uid := u.uid, email := u.email, role := u.role }
    iat := now
    exp := now + accessTokenExpiry
    sig := accessTokenSecret }

/-- `userSchema.methods.generateRefreshToken`, issued at time `now`
(seconds): payload `{ _id }`, signed with the refresh secret, `expiresIn`
7 days. -/
def generateRefreshToken (u : UserDoc) (now : Nat) : Jwt RefreshClaims :=
  { claims := { uid := u.uid }
    iat := now
    exp := now + refreshTokenExpiry
    sig := refreshTokenSecret }

/-- The effect on the record store of `user.refreshToken = rt;
await user.save(...)` (and of the `$unset`/`undefined` clearing writes):
overwrite the stored refresh token of the documents with the given id. -/
def saveRefreshToken (db : UserDb) (id : String) (rt : Option (Jwt RefreshClaims)) : UserDb :=
  db.map (fun u => if u.uid = id then { u with refreshToken := rt } else u)

/-- `generateTokensAndSetCookies(user, res)` from the auth controller,
at issue time `now`: generate both tokens, store the new refresh token as
the subject's sole `currentRefreshToken` (overwriting any prior value),
and return the pair together with the updated store. Used by register,
login and the refresh (rotate) endpoint alike. -/
def generateTokensAndSetCookies (db : UserDb) (u : UserDoc) (now : Nat) :
    Jwt AccessClaims × Jwt RefreshClaims × UserDb :=
  let accessToken := generateAccessToken u now
  let refreshToken := generateRefreshToken u now
  (accessToken, refreshToken, saveRefreshToken db u.uid (some refreshToken))

/-- The record-store effect of `logout` (revoke): `findByIdAndUpdate` with
`$unset: { refreshToken: 1 }` clears the stored refresh token. -/
def logout (db : UserDb) (id : String) : UserDb :=
  saveRefreshToken db id none

/-- The `authorize(...allowedRoles)` middleware: requires an
already-attached `req.user` and checks `allowedRoles.includes(req.user.role)`.
Pure — no store access, no writes. -/
def authorize (allowedRoles : List String) (reqUser : Option UserDoc) : AuthResult :=
  match reqUser with
  | none => .err .authenticationRequired
  | some u =>
    if allowedRoles.contains u.role then .ok u else .err .forbidden

/-- The `isOwnerOrAdmin` middleware: requires an already-attached
`req.user`; `isOwner` compares `req.user._id.toString()` with the resource
owner id, `isAdmin` compares the role with `'admin'`; denies iff neither
holds. Pure — no store access, no writes. -/
def isOwnerOrAdmin (reqUser : Option UserDoc) (resourceOwnerId : String) : AuthResult :=
  match reqUser with
  | none => .err .authenticationRequired
  | some u =>
    let isOwner := decide (u.uid = resourceOwnerId)
    let isAdmin := decide (u.role = "admin")
    if !isOwner && !isAdmin then .err .forbidden else .ok u

/-- Sample active user with no password change and no stored refresh token. -/
def alice : UserDoc :=
  { uid := "alice", email := "alice@example.com", role := "user"
    isActive := true, passwordChangedAt := none, refreshToken := none }

/-- Sample user (active, before deactivation). -/
def bobActive : UserDoc :=
  { uid := "bob", email := "bob@example.com", role := "user"
    isActive := true, passwordChangedAt := none, refreshToken := none }

/-- `bobActive` after `isActive` is set to `false`. -/
def bobInactive : UserDoc := { bobActive with isActive := false }

/-- Sample user before a password change. -/
def carol0 : UserDoc :=
  { uid := "carol", email := "carol@example.com", role := "user"
    isActive := true, passwordChangedAt := none, refreshToken := none }

/-- A refresh token issued to carol at second 100. -/
def ctok : Jwt RefreshClaims := generateRefreshToken carol0 100

/-- Carol after `passwordChangedAt` was set to 200000 ms (second 200 —
after `ctok`'s `iat` of 100) while `ctok` is still the stored token. -/
def carol : UserDoc :=
  { carol0 with passwordChangedAt := some 200000, refreshToken := some ctok }

/-- Sample user before refresh-token issuance. -/
def dave0 : UserDoc :=
  { uid := "dave", email := "dave@example.com", role := "user"
    isActive := true, passwordChangedAt := none, refreshToken := none }

/-- A refresh token issued to dave at second 100. -/
def dtok : Jwt RefreshClaims := generateRefreshToken dave0 100

/-- Dave with `dtok` stored as his current refresh token. -/
def dave : UserDoc := { dave0 with refreshToken := some dtok }

/-- Admission decision of the sliding-window limiter: pass the request on,
or throw `ApiError.tooManyRequests`. -/
inductive AdmitDecision where
  | admitted
  | rateExceeded
  deriving DecidableEq, Repr

/-- The limiter's `requests` JS `Map`, as an association list in insertion
order (a JS `Map` iterates in insertion order). -/
abbrev RequestsMap := List (String × List Int)

/-- `requests.get(key) || []`. -/
def getRequests (m : RequestsMap) (k : String) : List Int :=
  match m with
  | [] => []
  | (k', l) :: rest => if k' = k then l else getRequests rest k

/-- JS `Map.prototype.set`: update in place when the key exists (keeping
its position), else append at the end. -/
def setRequests (m : RequestsMap) (k : String) (l : List Int) : RequestsMap :=
  match m with
  | [] => [(k, l)]
  | (k', l') :: rest =>
    if k' = k then (k, l) :: rest else (k', l') :: setRequests rest k l

/-- `userRequests.filter((time) => now - time < windowMs)`. -/
def pruneWindow (windowMs now : Int) (l : List Int) : List Int :=
  l.filter (fun t => decide (now - t < windowMs))

/-- The periodic cleanup in `createSlidingWindowLimiter`: delete every key
whose every recorded timestamp is strictly below `cutoff = now - windowMs`. -/
def purgeAgedKeys (windowMs now : Int) (m : RequestsMap) : RequestsMap :=
  m.filter (fun kv => !(kv.2.all (fun t => decide (t < now - windowMs))))

/-- One call of the middleware returned by
`createSlidingWindowLimiter({ windowMs, maxRequests })`: read the key's
timestamps, drop those outside the window, throw (recording nothing and
leaving the map untouched) when the remaining count reaches `maxRequests`,
otherwise append `now`, store the new list, and run the size-triggered
cleanup (`requests.size > 10000` in the source; the threshold is a
parameter here). -/
def slidingWindowAdmit (windowMs : Int) (maxRequests sizeThreshold : Nat)
    (m : RequestsMap) (k : String) (now : Int) : AdmitDecision × RequestsMap :=
  let userRequests := getRequests m k
  let fresh := pruneWindow windowMs now userRequests
  if maxRequests ≤ fresh.length then (.rateExceeded, m)
  else
    let m' := setRequests m k (fresh ++ [now])
    let m'' := if sizeThreshold < m'.length then purgeAgedKeys windowMs now m' else m'
    (.admitted, m'')

/-- Run a sequence of `(key, now)` admit calls, collecting the decisions. -/
def runAdmits (windowMs : Int) (maxRequests sizeThreshold : Nat)
    (m : RequestsMap) : List (String × Int) → List AdmitDecision × RequestsMap
  | [] => ([], m)
  | (k, now) :: rest =>
    let r := slidingWindowAdmit windowMs maxRequests sizeThreshold m k now
    let res := runAdmits windowMs maxRequests sizeThreshold r.2 rest
    (r.1 :: res.1, res.2)

/-- Distinct keys, as is invariant for a JS `Map`. -/
abbrev KeysNodup (m : RequestsMap) : Prop := (m.map Prod.fst).Nodup

/-- Two limiter states are window-equivalent from `t0` on: at every key
and every instant `now ≥ t0`, the timestamps surviving the window filter
coincide — hence so does every future admit/reject decision. -/
def WindowEquiv (windowMs t0 : Int) (m1 m2 : RequestsMap) : Prop :=
  ∀ (k : String) (now : Int), t0 ≤ now →
    pruneWindow windowMs now (getRequests m1 k) =
      pruneWindow windowMs now (getRequests m2 k)

/-- A cache entry as written by `cache.set` (Redis `setex`): the value
with its insertion instant and TTL, in seconds. The entry is live while
`now < insertedAt + ttl`; past that, Redis has expired the key. -/
structure CacheEntry (V : Type) where
  value : V
  insertedAt : Nat
  ttl : Nat
  deriving DecidableEq, Repr

/-- The connected Redis store underlying `CacheService`. -/
abbrev CacheStore (V : Type) := List (String × CacheEntry V)

/-- Raw key lookup in the store. -/
def cacheFind {V : Type} (s : CacheStore V) (k : String) : Option (CacheEntry V) :=
  match s with
  | [] => none
  | (k', e) :: rest => if k' = k then some e else cacheFind rest k

/-- `cache.get(key)`: the stored value when the key is present and not yet
expired, else `null` (a miss). -/
def cacheGet {V : Type} (now : Nat) (s : CacheStore V) (k : String) : Option V :=
  match cacheFind s k with
  | some e => if now < e.insertedAt + e.ttl then some e.value else none
  | none => none

/-- `cache.set(key, value, ttl)` = Redis `setex`: (re)bind the key to the
value with the given TTL from `now`. -/
def cacheSet {V : Type} (now : Nat) (s : CacheStore V) (k : String) (v : V)
    (ttl : Nat) : CacheStore V :=
  match s with
  | [] => [(k, { value := v, insertedAt := now, ttl := ttl })]
  | (k', e) :: rest =>
    if k' = k then (k, { value := v, insertedAt := now, ttl := ttl }) :: rest
    else (k', e) :: cacheSet now rest k v ttl

/-- `cache.del(key)`: remove the key; a no-op on a miss. -/
def cacheDel {V : Type} (s : CacheStore V) (k : String) : CacheStore V :=
  s.filter (fun kv => !(decide (kv.1 = k)))

/-- `cache.delByPattern(p + '*')` via Redis `KEYS`: remove every key that
begins with the pattern's fixed stem. -/
def cacheDelByPattern {V : Type} (s : CacheStore V) (p : String) : CacheStore V :=
  s.filter (fun kv => !(p.isPrefixOf kv.1))

/-- `defaultTTL` of `CacheService`, in seconds. -/
def defaultTTL : Nat := 3600

/-- `cache.getOrSet(key, fetchFn, ttl)` (cache-aside): return a live
cached value, otherwise invoke `fetchFn`, store its result under the key
with the given TTL, and return it. The third component counts the
`fetchFn` invocations made by the call. -/
def getOrSet {V : Type} (now : Nat) (s : CacheStore V) (k : String)
    (fetchFn : Unit → V) (ttl : Nat) : V × CacheStore V × Nat :=
  match cacheGet now s k with
  | some v => (v, s, 0)
  | none =>
    let v := fetchFn ()
    (v, cacheSet now s k v ttl, 1)

/-- The `USER_UPDATED` listener from the user event handlers:
`cache.del('user:' + userId)` then `cache.delByPattern('users:*')`. -/
def onUserUpdated {V : Type} (s : CacheStore V) (userId : String) : CacheStore V :=
  cacheDelByPattern (cacheDel s ("user:" ++ userId)) "users:"

/-- The observable phases of one refresh-rotation request, as the code
performs them: the `verifyRefreshToken` read-and-compare against the
record store, then — for a request whose verify succeeded — the
controller's `user.refreshToken = new; user.save()` write. Two concurrent
requests A and B interleave these phases. -/
inductive RaceEvent where
  | aVerify
  | bVerify
  | aSave
  | bSave
  deriving DecidableEq, Repr

/-- Shared state of the race: the subject's stored `currentRefreshToken`
in the record store, plus whether each request's verify phase succeeded. -/
structure RaceState where
  stored : Option (Jwt RefreshClaims)
  aOk : Bool
  bOk : Bool
  deriving DecidableEq, Repr

/-- Interleaving semantics of two concurrent refresh requests, both
presenting token `tok`: a verify phase compares the current stored value
with `tok` (the `user.refreshToken !== refreshToken` check of
`verifyRefreshToken`); a save phase of a verified request performs the
plain unconditional overwrite that `user.save()` is — no compare-and-set,
no version check. -/
def raceStep (tok newA newB : Jwt RefreshClaims) (s : RaceState) :
    RaceEvent → RaceState
  | .aVerify => { s with aOk := decide (s.stored = some tok) }
  | .bVerify => { s with bOk := decide (s.stored = some tok) }
  | .aSave => if s.aOk then { s with stored := some newA } else s
  | .bSave => if s.bOk then { s with stored := some newB } else s

/-- Run a schedule of race events from an initial stored token. A request
succeeds (responds with a fresh pair) iff its verify phase succeeded. -/
def runRace (tok newA newB : Jwt RefreshClaims)
    (stored0 : Option (Jwt RefreshClaims)) (evs : List RaceEvent) : RaceState :=
  evs.foldl (raceStep tok newA newB) { stored := stored0, aOk := false, bOk := false }

/-- Helper: `findById db id = some u` forces `u.uid = id` and `u.isActive`. -/
theorem findById_spec (db : UserDb) (id : String) (u : UserDoc)
    (h : findById db id = some u) : u.uid = id ∧ u.isActive = true := by
  induction db with
  | nil => simp [findById] at h
  | cons v rest ih =>
    by_cases hv : v.uid = id ∧ v.isActive = true
    · simp [findById, hv] at h
      exact h ▸ hv
    · simp [findById, hv] at h
      exact ih h

/-- Claim C10: the password-change-epoch test truncates `passwordChangedAt`
to whole seconds and compares with strict less-than against the token's
`iat` (seconds): `changedPasswordAfter (some p) iat` is exactly
`iat < p / 1000`, so every token with `p / 1000 ≤ iat` — including one
issued within the same second as the password change — passes the epoch
check, and a `null` `passwordChangedAt` always passes. -/
theorem changedPasswordAfter_truncates_and_is_strict (p iat : Nat) :
    (changedPasswordAfter (some p) iat = decide (iat < p / 1000)) ∧
    (p / 1000 ≤ iat → changedPasswordAfter (some p) iat = false) ∧
    changedPasswordAfter none iat = false := by
  refine ⟨rfl, fun h => ?_, rfl⟩
  simp [changedPasswordAfter]
  exact h

/-- Witness for C10 at a concrete input: a password change at 100400 ms
(second 100) and a token issued at second 100 (same second) passes the
epoch check. -/
theorem changedPasswordAfter_truncates_and_is_strict_witness :
    changedPasswordAfter (some 100400) 100 = false :=
  (changedPasswordAfter_truncates_and_is_strict 100400 100).2.1 (by decide)

/-- Claim C8: for every already-verified identity, resource owner id and
required-role list, the ownership policy admits iff the identity's subject
id equals the resource owner id or its role is in the required-role set —
here the code's fixed set `['admin']` (the admin-or-self pattern of
`isOwnerOrAdmin`) — and the role policy `authorize` admits iff the role is
a member of the supplied role list; both are pure functions of their
arguments (no authentication, no side effects). -/
theorem isOwnerOrAdmin_iff_owner_or_role (u : UserDoc) (resourceOwnerId : String)
    (allowedRoles : List String) :
    (isOwnerOrAdmin (some u) resourceOwnerId = .ok u ↔
      u.uid = resourceOwnerId ∨ u.role ∈ ["admin"]) ∧
    (authorize allowedRoles (some u) = .ok u ↔ u.role ∈ allowedRoles) := by
  constructor
  · simp only [isOwnerOrAdmin, List.mem_singleton]
    by_cases ho : u.uid = resourceOwnerId <;> by_cases ha : u.role = "admin" <;>
      simp [ho, ha]
  · simp only [authorize]
    by_cases hr : u.role ∈ allowedRoles
    · simp [hr]
    · simp [hr]

/-- Helper: how `findById` interacts with a refresh-token write — the
write changes no field inspected by the query filter, so a successful
lookup returns the original document with the token field rewritten. -/
theorem findById_map_keeps (f : UserDoc → UserDoc)
    (hkeep : ∀ u, (f u).uid = u.uid ∧ (f u).isActive = u.isActive)
    (db : UserDb) (i : String) :
    findById (db.map f) i = (findById db i).map f := by
  induction db with
  | nil => rfl
  | cons v rest ih =>
    simp only [List.map_cons, findById]
    by_cases hc : v.uid = i ∧ v.isActive = true
    · rw [if_pos hc, if_pos (by rw [(hkeep v).1, (hkeep v).2]; exact hc)]
      simp
    · rw [if_neg hc, if_neg (by rw [(hkeep v).1, (hkeep v).2]; exact hc)]
      simpa using ih

/-- Helper: a successful lookup carries over a refresh-token write with
the token field rewritten. -/
theorem findById_saveRefreshToken (db : UserDb) (i i' : String)
    (rt : Option (Jwt RefreshClaims)) (u : UserDoc)
    (h : findById db i = some u) :
    findById (saveRefreshToken db i' rt) i =
      some (if u.uid = i' then { u with refreshToken := rt } else u) := by
  have hk : ∀ w : UserDoc,
      ((if w.uid = i' then { w with refreshToken := rt } else w : UserDoc)).uid = w.uid ∧
      ((if w.uid = i' then { w with refreshToken := rt } else w : UserDoc)).isActive =
        w.isActive := by
    intro w
    by_cases hw : w.uid = i' <;> simp [hw]
  simp only [saveRefreshToken]
  rw [findById_map_keeps _ hk, h]
  rfl

/-- Helper: inversion of a successful refresh-token verification — the
subject was found (hence active) and the stored token byte-equals the
presented one. -/
theorem verifyRefreshToken_ok_inv (db : UserDb) (now : Nat)
    (tok : Jwt RefreshClaims) (v : UserDoc)
    (h : verifyRefreshToken db now (some tok) = .ok v) :
    findById db tok.claims.uid = some v ∧ v.refreshToken = some tok := by
  by_cases hsig : tok.sig = refreshTokenSecret
  · by_cases hexp : tok.exp ≤ now
    · simp [verifyRefreshToken, hsig, hexp] at h
    · cases hfind : findById db tok.claims.uid with
      | none => simp [verifyRefreshToken, hsig, hexp, hfind] at h
      | some w =>
        by_cases hrt : w.refreshToken = some tok
        · by_cases hact : w.isActive = false
          · simp [verifyRefreshToken, hsig, hexp, hfind, hrt, hact] at h
          · have hwv : w = v := by
              simpa [verifyRefreshToken, hsig, hexp, hfind, hrt, hact] using h
            subst hwv
            exact ⟨rfl, hrt⟩
        · simp [verifyRefreshToken, hsig, hexp, hfind, hrt] at h
  · simp [verifyRefreshToken, hsig] at h

/-- Claim C4: verifying a freshly issued access token succeeds and yields
the same subject and role, provided the record is unchanged (the same
document is found, so in particular the subject is active), no password
change postdates the issue instant, and the token lifetime has not
elapsed. -/
theorem issue_then_verifyAccess_roundtrip (db : UserDb) (u : UserDoc) (n n' : Nat)
    (hfind : findById db u.uid = some u)
    (hpca : changedPasswordAfter u.passwordChangedAt n = false)
    (hexp : n' < n + accessTokenExpiry) :
    authenticate db n' (some (generateAccessToken u n)) = .ok u ∧
    (generateAccessToken u n).claims.uid = u.uid ∧
    (generateAccessToken u n).claims.role = u.role := by
  have hact : u.isActive = true := (findById_spec db u.uid u hfind).2
  have hexp' : ¬ (n + accessTokenExpiry ≤ n') := by omega
  refine ⟨?_, rfl, rfl⟩
  simp [authenticate, generateAccessToken, hexp', hfind, hact, hpca]

/-- Witness for C4: alice's access token issued at second 1000 verifies at
second 1500 and returns alice. -/
theorem issue_then_verifyAccess_roundtrip_witness :
    authenticate [alice] 1500 (some (generateAccessToken alice 1000)) = .ok alice :=
  (issue_then_verifyAccess_roundtrip [alice] alice 1000 1500 (by decide) rfl
    (by decide)).1

/-- Claim C5 (code bug, evaluated at the failing input): bob is
deactivated while holding a valid, unexpired access token. Because the
schema's `pre(/^find/)` middleware — whose own comment says it applies
"to find queries, not findOne" — in fact also filters `findOne` and hence
`findById`, the deactivated bob is not found, and `authenticate` fails
with the subject-not-found error ('User not found or has been deleted')
instead of `AccountInactive` ('User account has been deactivated'); the
`accountInactive` branch is unreachable. The stale-credential half of the
claim does hold: an active user whose `passwordChangedAt` postdates the
token's `iat` fails with `StaleCredential`. -/
theorem deactivated_user_fails_subjectNotFound_not_accountInactive :
    authenticate [bobInactive] 200 (some (generateAccessToken bobActive 100)) =
      .err .subjectNotFound ∧
    (AuthResult.err .subjectNotFound ≠ AuthResult.err .accountInactive) ∧
    bobInactive.isActive = false ∧
    bobInactive.uid = (generateAccessToken bobActive 100).claims.uid ∧
    (200 < (generateAccessToken bobActive 100).exp) ∧
    authenticate [{ alice with passwordChangedAt := some 150000 }] 200
      (some (generateAccessToken alice 100)) = .err .staleCredential := by
  decide

/-- Claim C1 counterexample: carol's `passwordChangedAt` (second 200)
postdates her refresh token's `iat` (second 100), the token is unexpired
at second 300, yet `verifyRefreshToken` succeeds — it does not fail with
`StaleCredential`, because the middleware performs no
password-change-epoch check. -/
theorem verifyRefresh_accepts_stale_epoch_token :
    verifyRefreshToken [carol] 300 (some ctok) = .ok carol ∧
    changedPasswordAfter carol.passwordChangedAt ctok.iat = true ∧
    300 < ctok.exp := by
  decide

/-- Claim C1 (amended): `verifyRefreshToken` enforces the stored-token
byte-comparison and `isActive`, but performs no password-change-epoch
check. A refresh token whose subject's `passwordChangedAt` postdates its
`iat` still verifies successfully whenever it byte-equals the stored
`currentRefreshToken` (the subject being found implies it is active); it
is rejected — with `RevokedCredential`, not `StaleCredential` — exactly
when the stored token no longer matches, e.g. after the password-change
flow cleared it. -/
theorem verifyRefresh_ignores_password_epoch (db : UserDb) (u : UserDoc)
    (tok : Jwt RefreshClaims) (now : Nat)
    (hsig : tok.sig = refreshTokenSecret) (hexp : now < tok.exp)
    (hfind : findById db tok.claims.uid = some u)
    (hstale : changedPasswordAfter u.passwordChangedAt tok.iat = true) :
    (u.refreshToken = some tok → verifyRefreshToken db now (some tok) = .ok u) ∧
    (u.refreshToken ≠ some tok →
      verifyRefreshToken db now (some tok) = .err .revokedCredential) := by
  have hact : u.isActive = true := (findById_spec db tok.claims.uid u hfind).2
  have hexp' : ¬ (tok.exp ≤ now) := by omega
  have _hstale := hstale
  constructor
  · intro hrt
    simp [verifyRefreshToken, hsig, hexp', hfind, hrt, hact]
  · intro hrt
    simp [verifyRefreshToken, hsig, hexp', hfind, hrt]

/-- Witness for the amended C1: carol's stale-epoch token verifies while
it is the stored token; once the stored token is cleared (as the
password-change flow does), the same token is rejected as revoked. -/
theorem verifyRefresh_ignores_password_epoch_witness :
    verifyRefreshToken [carol] 300 (some ctok) = .ok carol ∧
    verifyRefreshToken [{ carol with refreshToken := none }] 300 (some ctok) =
      .err .revokedCredential := by
  refine ⟨(verifyRefresh_ignores_password_epoch [carol] carol ctok 300 rfl
    (by decide) (by decide) (by decide)).1 rfl, ?_⟩
  exact (verifyRefresh_ignores_password_epoch [{ carol with refreshToken := none }]
    { carol with refreshToken := none } ctok 300 rfl (by decide) (by decide)
    (by decide)).2 (by decide)

/-- Claim C2 (amended): single-valid-refresh-token discipline. (a) a
presented refresh token that does not byte-equal the stored
`currentRefreshToken` is rejected with `RevokedCredential`; (b) at any
instant at most one refresh token verifies for a given subject; (c)
replaying a spent token: the first redemption verifies, the rotation
(`generateTokensAndSetCookies`) overwrites the stored token, and —
provided the rotation happens in a different whole second than the
superseded token's `iat` (otherwise the regenerated token is
byte-identical, see the counterexample) — the superseded token is
thereafter rejected with `RevokedCredential`; (d) after revoke (cleared
stored token), every well-formed unexpired presented token is rejected
with `RevokedCredential`; (e) the next issuance stores a fresh token,
which then verifies. -/
theorem refresh_single_use_and_revocation (db : UserDb) (u : UserDoc)
    (tok : Jwt RefreshClaims) (now n2 : Nat)
    (hsig : tok.sig = refreshTokenSecret) (hexp : now < tok.exp)
    (hfind : findById db tok.claims.uid = some u) :
    (u.refreshToken ≠ some tok →
      verifyRefreshToken db now (some tok) = .err .revokedCredential) ∧
    (∀ (t1 t2 : Jwt RefreshClaims) (v1 v2 : UserDoc),
      verifyRefreshToken db now (some t1) = .ok v1 →
      verifyRefreshToken db now (some t2) = .ok v2 → v1.uid = v2.uid → t1 = t2) ∧
    (u.refreshToken = some tok → tok.iat ≠ n2 →
      verifyRefreshToken db now (some tok) = .ok u ∧
      verifyRefreshToken (generateTokensAndSetCookies db u n2).2.2 now (some tok) =
        .err .revokedCredential) ∧
    (u.refreshToken = none →
      verifyRefreshToken db now (some tok) = .err .revokedCredential) ∧
    (∀ n', n' < n2 + refreshTokenExpiry →
      verifyRefreshToken (generateTokensAndSetCookies db u n2).2.2 n'
        (some (generateRefreshToken u n2)) =
        .ok { u with refreshToken := some (generateRefreshToken u n2) }) := by
  have hspec := findById_spec db tok.claims.uid u hfind
  have hact : u.isActive = true := hspec.2
  have huid : u.uid = tok.claims.uid := hspec.1
  have hexp' : ¬ (tok.exp ≤ now) := by omega
  have hmm : ∀ rt : Option (Jwt RefreshClaims),
      findById (saveRefreshToken db u.uid rt) tok.claims.uid =
        some { u with refreshToken := rt } := by
    intro rt
    rw [findById_saveRefreshToken db tok.claims.uid u.uid rt u hfind]
    simp
  refine ⟨?_, ?_, ?_, ?_, ?_⟩
  · intro hrt
    simp [verifyRefreshToken, hsig, hexp', hfind, hrt]
  · intro t1 t2 v1 v2 h1 h2 hv
    obtain ⟨hf1, hr1⟩ := verifyRefreshToken_ok_inv db now t1 v1 h1
    obtain ⟨hf2, hr2⟩ := verifyRefreshToken_ok_inv db now t2 v2 h2
    have e1 : v1.uid = t1.claims.uid := (findById_spec db t1.claims.uid v1 hf1).1
    have e2 : v2.uid = t2.claims.uid := (findById_spec db t2.claims.uid v2 hf2).1
    have hsame : findById db t2.claims.uid = some v1 := by
      rw [← e2, ← hv, e1] at hf2 ⊢
      exact hf1
    have hv12 : v1 = v2 := by
      rw [hsame] at hf2
      exact Option.some.inj hf2
    have : some t1 = some t2 := by rw [← hr1, hv12, hr2]
    exact Option.some.inj this
  · intro hrt hiat
    have hne : ({ u with refreshToken := some (generateRefreshToken u n2)} :
        UserDoc).refreshToken ≠ some tok := by
      simp only [ne_eq, Option.some.injEq]
      intro hcontra
      exact hiat (by rw [← hcontra]; rfl)
    constructor
    · simp [verifyRefreshToken, hsig, hexp', hfind, hrt, hact]
    · simp only [generateTokensAndSetCookies]
      simp [verifyRefreshToken, hsig, hexp', hmm (some (generateRefreshToken u n2)),
        hne]
  · intro hrt
    simp [verifyRefreshToken, hsig, hexp', hfind, hrt]
  · intro n' hn'
    have hexp2 : ¬ ((generateRefreshToken u n2).exp ≤ n') := by
      simp only [generateRefreshToken]
      omega
    have hfind2 : findById (saveRefreshToken db u.uid
        (some (generateRefreshToken u n2)))
        (generateRefreshToken u n2).claims.uid =
        some { u with refreshToken := some (generateRefreshToken u n2) } := by
      have : (generateRefreshToken u n2).claims.uid = tok.claims.uid := by
        rw [← huid]; rfl
      rw [this]
      exact hmm (some (generateRefreshToken u n2))
    have hsig2 : (generateRefreshToken u n2).sig = refreshTokenSecret := rfl
    simp only [generateTokensAndSetCookies]
    simp [verifyRefreshToken, hsig2, hexp2, hfind2, hact]

/-- Witness for C2: dave's stored token verifies at second 200; after a
rotation at second 300 the superseded token is rejected as revoked; with a
cleared stored token every presented token is rejected as revoked. -/
theorem refresh_single_use_and_revocation_witness :
    verifyRefreshToken [dave] 200 (some dtok) = .ok dave ∧
    verifyRefreshToken (generateTokensAndSetCookies [dave] dave 300).2.2 200
      (some dtok) = .err .revokedCredential ∧
    verifyRefreshToken [dave0] 200 (some dtok) = .err .revokedCredential := by
  have h := refresh_single_use_and_revocation [dave] dave dtok 200 300 rfl
    (by decide) (by decide)
  have h0 := refresh_single_use_and_revocation [dave0] dave0 dtok 200 300 rfl
    (by decide) (by decide)
  exact ⟨(h.2.2.1 rfl (by decide)).1, (h.2.2.1 rfl (by decide)).2,
    h0.2.2.2.1 rfl⟩

/-- Claim C6 (code bug, evaluated at the failing interleaving): the
rotation write is `user.save()` — a plain overwrite after an earlier read,
not a compare-and-set. Under the interleaving where both concurrent
refresh requests run their `verifyRefreshToken` read before either save
(verify A, verify B, save A, save B), both requests observe the same
stale stored token, both verify phases succeed, and both requests are
answered with fresh pairs — contradicting "at most one succeeds". The
serialized schedule (verify A, save A, verify B, save B) shows the second
request fails only when the first's write is already visible. -/
theorem concurrent_refresh_both_succeed :
    (runRace dtok (generateRefreshToken dave0 300) (generateRefreshToken dave0 301)
      (some dtok) [.aVerify, .bVerify, .aSave, .bSave]).aOk = true ∧
    (runRace dtok (generateRefreshToken dave0 300) (generateRefreshToken dave0 301)
      (some dtok) [.aVerify, .bVerify, .aSave, .bSave]).bOk = true ∧
    (runRace dtok (generateRefreshToken dave0 300) (generateRefreshToken dave0 301)
      (some dtok) [.aVerify, .aSave, .bVerify, .bSave]).aOk = true ∧
    (runRace dtok (generateRefreshToken dave0 300) (generateRefreshToken dave0 301)
      (some dtok) [.aVerify, .aSave, .bVerify, .bSave]).bOk = false := by
  decide

/-- Helper: `cacheSet` binds the key to the fresh entry. -/
theorem cacheFind_set_self {V : Type} (now : Nat) (s : CacheStore V) (k : String)
    (v : V) (ttl : Nat) :
    cacheFind (cacheSet now s k v ttl) k =
      some { value := v, insertedAt := now, ttl := ttl } := by
  induction s with
  | nil => simp [cacheSet, cacheFind]
  | cons kv rest ih =>
    by_cases hk : kv.1 = k
    · simp [cacheSet, hk, cacheFind]
    · simp [cacheSet, hk, cacheFind, ih]

/-- Helper: an absent key stays absent under any filter. -/
theorem cacheFind_filter_none {V : Type} (s : CacheStore V) (k : String)
    (p : String × CacheEntry V → Bool) (h : cacheFind s k = none) :
    cacheFind (s.filter p) k = none := by
  induction s with
  | nil => simpa using h
  | cons kv rest ih =>
    by_cases hk : kv.1 = k
    · simp [cacheFind, hk] at h
    · simp only [cacheFind, hk, if_neg] at h
      by_cases hp : p kv
      · simpa [List.filter_cons, hp, cacheFind, hk] using ih h
      · simpa [List.filter_cons, hp] using ih h

/-- Helper: `cacheDel` removes the key. -/
theorem cacheFind_del_self {V : Type} (s : CacheStore V) (k : String) :
    cacheFind (cacheDel s k) k = none := by
  induction s with
  | nil => rfl
  | cons kv rest ih =>
    by_cases hk : kv.1 = k
    · simpa [cacheDel, List.filter_cons, hk] using ih
    · simpa [cacheDel, List.filter_cons, hk, cacheFind] using ih

/-- Claim C7: the read-through cache. A live entry is returned as is, with
no `fetchFn` call and no store mutation; on a miss `fetchFn` is invoked
exactly once, its result is stored under the key with the supplied TTL
(and is immediately readable while the TTL lasts) and returned; and after
the `USER_UPDATED` eviction of `user:<id>`, the next `getOrSet` for that
key invokes `fetchFn` again and returns its fresh result rather than the
previously cached value. -/
theorem getOrSet_read_through {V : Type} (now : Nat) (s : CacheStore V)
    (k : String) (fetchFn : Unit → V) (ttl : Nat) (userId : String) :
    (∀ v, cacheGet now s k = some v → getOrSet now s k fetchFn ttl = (v, s, 0)) ∧
    (cacheGet now s k = none →
      getOrSet now s k fetchFn ttl = (fetchFn (), cacheSet now s k (fetchFn ()) ttl, 1) ∧
      (0 < ttl → cacheGet now (cacheSet now s k (fetchFn ()) ttl) k = some (fetchFn ()))) ∧
    ((getOrSet now (onUserUpdated s userId) ("user:" ++ userId) fetchFn ttl).1 =
        fetchFn () ∧
      (getOrSet now (onUserUpdated s userId) ("user:" ++ userId) fetchFn ttl).2.2 = 1) := by
  refine ⟨?_, ?_, ?_⟩
  · intro v hv
    simp [getOrSet, hv]
  · intro hmiss
    refine ⟨by simp [getOrSet, hmiss], fun httl => ?_⟩
    simp [cacheGet, cacheFind_set_self]
    omega
  · have hgone : cacheGet now (onUserUpdated s userId) ("user:" ++ userId) = none := by
      have h1 : cacheFind (cacheDel s ("user:" ++ userId)) ("user:" ++ userId) = none :=
        cacheFind_del_self s ("user:" ++ userId)
      have h2 : cacheFind (onUserUpdated s userId) ("user:" ++ userId) = none :=
        cacheFind_filter_none _ _ _ h1
      simp [cacheGet, h2]
    constructor
    · simp [getOrSet, hgone]
    · simp [getOrSet, hgone]

/-- Witness for C7: a live entry for `user:42` (value 7) is returned
without invoking the loader; after the `USER_UPDATED` eviction for id 42,
the same lookup invokes the loader (once) and returns its fresh value 9. -/
theorem getOrSet_read_through_witness :
    getOrSet 10 [("user:42", { value := 7, insertedAt := 0, ttl := 3600 })] "user:42"
      (fun _ => 9) 3600 =
      (7, [("user:42", { value := 7, insertedAt := 0, ttl := 3600 })], 0) ∧
    (getOrSet 10 (onUserUpdated
      [("user:42", { value := 7, insertedAt := 0, ttl := 3600 })] "42") "user:42"
      (fun _ => 9) 3600).1 = 9 ∧
    (getOrSet 10 (onUserUpdated
      [("user:42", { value := 7, insertedAt := 0, ttl := 3600 })] "42") "user:42"
      (fun _ => 9) 3600).2.2 = 1 := by
  have h := getOrSet_read_through 10
    [("user:42", ({ value := 7, insertedAt := 0, ttl := 3600 } : CacheEntry Nat))]
    "user:42" (fun _ => 9) 3600 "42"
  exact ⟨h.1 7 (by decide), h.2.2.1, h.2.2.2⟩

/-- Helper: `Map.set` then `Map.get` on the same key yields the new list. -/
theorem getRequests_setRequests_self (m : RequestsMap) (k : String) (l : List Int) :
    getRequests (setRequests m k l) k = l := by
  induction m with
  | nil => simp [setRequests, getRequests]
  | cons kv rest ih =>
    by_cases hk : kv.1 = k
    · simp [setRequests, hk, getRequests]
    · simp [setRequests, hk, getRequests, ih]

/-- Helper: the aged-key purge leaves every key with at least one
in-cutoff timestamp bound to its unchanged list. -/
theorem getRequests_purgeAgedKeys_of_live (w now : Int) (m : RequestsMap)
    (k : String)
    (h : (getRequests m k).all (fun t => decide (t < now - w)) = false) :
    getRequests (purgeAgedKeys w now m) k = getRequests m k := by
  induction m with
  | nil => rfl
  | cons kv rest ih =>
    by_cases hk : kv.1 = k
    · have hall : kv.2.all (fun t => decide (t < now - w)) = false := by
        simpa [getRequests, hk] using h
      simp [purgeAgedKeys, List.filter_cons, hall, getRequests, hk]
    · have h' : (getRequests rest k).all (fun t => decide (t < now - w)) = false := by
        simpa [getRequests, hk] using h
      by_cases hall : kv.2.all (fun t => decide (t < now - w))
      · simpa [purgeAgedKeys, List.filter_cons, hall, getRequests, hk] using ih h'
      · simpa [purgeAgedKeys, List.filter_cons, hall, getRequests, hk] using ih h'

/-- Claim C3: one `admit(key, now)` call of the sliding-window limiter.
Timestamps outside the trailing window are dropped (every survivor `t`
satisfies `now − t < windowMs`); if the surviving count reaches the
ceiling the call rejects with the map untouched (the rejected attempt is
not recorded — rejected calls consume no budget); otherwise the call
admits and stores exactly the survivors with `now` appended. Concretely,
with ceiling 5 and a 60 s window: five admits for one key within the
window succeed, the sixth rejects, and after time passes the window an
admit succeeds again. -/
theorem slidingWindow_admit_correct (w : Int) (cap thr : Nat) (m : RequestsMap)
    (k : String) (now : Int) (hw : 0 ≤ w) :
    (cap ≤ (pruneWindow w now (getRequests m k)).length →
      slidingWindowAdmit w cap thr m k now = (.rateExceeded, m)) ∧
    ((pruneWindow w now (getRequests m k)).length < cap →
      (slidingWindowAdmit w cap thr m k now).1 = .admitted ∧
      getRequests (slidingWindowAdmit w cap thr m k now).2 k =
        pruneWindow w now (getRequests m k) ++ [now]) ∧
    (∀ t ∈ pruneWindow w now (getRequests m k), now - t < w) ∧
    ((runAdmits 60000 5 10000 []
        [("k", 0), ("k", 10), ("k", 20), ("k", 30), ("k", 40), ("k", 50),
          ("k", 61000)]).1 =
      [.admitted, .admitted, .admitted, .admitted, .admitted, .rateExceeded,
        .admitted]) := by
  refine ⟨?_, ?_, ?_, by decide⟩
  · intro h
    simp [slidingWindowAdmit, h]
  · intro h
    have hno : ¬ (cap ≤ (pruneWindow w now (getRequests m k)).length) := by omega
    have hlive : ((pruneWindow w now (getRequests m k) ++ [now]).all
        (fun t => decide (t < now - w))) = false := by
      have hnow : ¬ (now < now - w) := by omega
      simp [List.all_append, hnow]
    refine ⟨by simp [slidingWindowAdmit, hno], ?_⟩
    simp only [slidingWindowAdmit, if_neg hno]
    by_cases hthr :
      thr < (setRequests m k (pruneWindow w now (getRequests m k) ++ [now])).length
    · simp only [if_pos hthr]
      rw [getRequests_purgeAgedKeys_of_live]
      · exact getRequests_setRequests_self m k _
      · rw [getRequests_setRequests_self m k _]
        exact hlive
    · simp only [if_neg hthr]
      exact getRequests_setRequests_self m k _
  · intro t ht
    have hmem := List.mem_filter.mp ht
    exact of_decide_eq_true hmem.2

/-- Witness for C3: from a state where key `k` has one in-window
timestamp, an admit at instant 10 with ceiling 5 is admitted and the
stored list becomes the survivors with 10 appended. -/
theorem slidingWindow_admit_correct_witness :
    (slidingWindowAdmit 60000 5 10000 [("k", [0])] "k" 10).1 = .admitted ∧
    getRequests (slidingWindowAdmit 60000 5 10000 [("k", [0])] "k" 10).2 "k" =
      pruneWindow 60000 10 (getRequests [("k", [0])] "k") ++ [10] :=
  (slidingWindow_admit_correct 60000 5 10000 [("k", [0])] "k" 10 (by decide)).2.1
    (by decide)

/-- Helper: `Map.set` leaves other keys untouched. -/
theorem getRequests_setRequests_ne (m : RequestsMap) (k k' : String)
    (l : List Int) (h : k' ≠ k) :
    getRequests (setRequests m k l) k' = getRequests m k' := by
  have hne : ¬ (k = k') := fun hh => h hh.symm
  induction m with
  | nil => simp [setRequests, getRequests, hne]
  | cons kv rest ih =>
    by_cases hk : kv.1 = k
    · simp [setRequests, hk, getRequests, hne]
    · by_cases hk' : kv.1 = k'
      · simp [setRequests, hk, getRequests, hk', h]
      · simp [setRequests, hk, getRequests, hk', ih]

/-- Helper: a key absent from a map is absent from any filtering of it. -/
theorem getRequests_filter_nil (m : RequestsMap) (k : String)
    (p : String × List Int → Bool) (h : k ∉ m.map Prod.fst) :
    getRequests (m.filter p) k = [] := by
  induction m with
  | nil => rfl
  | cons kv rest ih =>
    simp only [List.map_cons, List.mem_cons] at h
    push_neg at h
    have hk : ¬ (kv.1 = k) := fun hh => h.1 hh.symm
    by_cases hp : p kv
    · simp [List.filter_cons, hp, getRequests, hk, ih h.2]
    · simp [List.filter_cons, hp, ih h.2]

/-- Helper: `Map.set` can only add its own key to the key set. -/
theorem mem_keys_setRequests (m : RequestsMap) (k k'' : String) (l : List Int)
    (h : k'' ∈ (setRequests m k l).map Prod.fst) :
    k'' = k ∨ k'' ∈ m.map Prod.fst := by
  induction m with
  | nil => simpa [setRequests] using h
  | cons kv rest ih =>
    by_cases hk : kv.1 = k
    · simp only [setRequests] at h
      rw [if_pos hk] at h
      simp only [List.map_cons, List.mem_cons] at h
      rcases h with h | h
      · exact Or.inl h
      · exact Or.inr (by simp only [List.map_cons, List.mem_cons]; exact Or.inr h)
    · simp only [setRequests] at h
      rw [if_neg hk] at h
      simp only [List.map_cons, List.mem_cons] at h
      rcases h with h | h
      · exact Or.inr (by simp only [List.map_cons, List.mem_cons]; exact Or.inl h)
      · rcases ih h with h' | h'
        · exact Or.inl h'
        · exact Or.inr (by simp only [List.map_cons, List.mem_cons]; exact Or.inr h')

/-- Helper: `Map.set` preserves key distinctness. -/
theorem keysNodup_setRequests (m : RequestsMap) (k : String) (l : List Int)
    (h : KeysNodup m) : KeysNodup (setRequests m k l) := by
  induction m with
  | nil => simp [KeysNodup, setRequests]
  | cons kv rest ih =>
    simp only [KeysNodup, List.map_cons, List.nodup_cons] at h
    by_cases hk : kv.1 = k
    · simp only [setRequests]
      rw [if_pos hk]
      simp only [KeysNodup, List.map_cons, List.nodup_cons]
      exact ⟨hk ▸ h.1, h.2⟩
    · have ih' := ih h.2
      simp only [setRequests]
      rw [if_neg hk]
      simp only [KeysNodup, List.map_cons, List.nodup_cons]
      refine ⟨fun hmem => ?_, ih'⟩
      rcases mem_keys_setRequests rest k kv.1 l hmem with h' | h'
      · exact hk h'
      · exact h.1 h'

/-- Helper: filtering (the purge included) preserves key distinctness. -/
theorem keysNodup_filter (m : RequestsMap) (p : String × List Int → Bool)
    (h : KeysNodup m) : KeysNodup (m.filter p) :=
  List.Nodup.sublist (List.Sublist.map Prod.fst (List.filter_sublist m)) h

/-- Helper: a list of timestamps all strictly below the cutoff
`now - windowMs` survives no window filter at any instant `now' ≥ now`. -/
theorem pruneWindow_nil_of_aged (w now now' : Int) (l : List Int)
    (hmono : now ≤ now')
    (hall : l.all (fun t => decide (t < now - w)) = true) :
    pruneWindow w now' l = [] := by
  induction l with
  | nil => rfl
  | cons a l ih =>
    simp only [List.all_cons, Bool.and_eq_true, decide_eq_true_eq] at hall
    have hdrop : ¬ (now' - a < w) := by omega
    simp only [pruneWindow, List.filter_cons]
    rw [if_neg (by simpa using hdrop)]
    exact ih (by simpa using hall.2)

/-- Helper: the aged-key purge is window-equivalent to the original map
from the purge instant on. -/
theorem windowEquiv_purgeAgedKeys (w now : Int) :
    ∀ (m : RequestsMap), KeysNodup m → WindowEquiv w now (purgeAgedKeys w now m) m := by
  intro m
  induction m with
  | nil => intro _ k now' _; rfl
  | cons kv rest ih =>
    intro hnd k now' hmono
    simp only [KeysNodup, List.map_cons, List.nodup_cons] at hnd
    by_cases hall : kv.2.all (fun t => decide (t < now - w)) = true
    · have hdrop : purgeAgedKeys w now (kv :: rest) = purgeAgedKeys w now rest := by
        simp [purgeAgedKeys, List.filter_cons, hall]
      rw [hdrop]
      by_cases hk : kv.1 = k
      · have hlhs : getRequests (purgeAgedKeys w now rest) k = [] :=
          getRequests_filter_nil rest k _ (hk ▸ hnd.1)
        have hrhs : getRequests (kv :: rest) k = kv.2 := by simp [getRequests, hk]
        rw [hlhs, hrhs, pruneWindow_nil_of_aged w now now' kv.2 hmono hall]
        rfl
      · have hrhs : getRequests (kv :: rest) k = getRequests rest k := by
          simp [getRequests, hk]
        rw [hrhs]
        exact ih hnd.2 k now' hmono
    · have hkeep : purgeAgedKeys w now (kv :: rest) = kv :: purgeAgedKeys w now rest := by
        simp [purgeAgedKeys, List.filter_cons, hall]
      rw [hkeep]
      by_cases hk : kv.1 = k
      · have l1 : getRequests (kv :: purgeAgedKeys w now rest) k = kv.2 := by
          simp [getRequests, hk]
        have l2 : getRequests (kv :: rest) k = kv.2 := by simp [getRequests, hk]
        rw [l1, l2]
      · have l1 : getRequests (kv :: purgeAgedKeys w now rest) k =
            getRequests (purgeAgedKeys w now rest) k := by simp [getRequests, hk]
        have l2 : getRequests (kv :: rest) k = getRequests rest k := by
          simp [getRequests, hk]
        rw [l1, l2]
        exact ih hnd.2 k now' hmono

/-- Helper: reflexivity of window-equivalence. -/
theorem windowEquiv_refl (w t0 : Int) (m : RequestsMap) : WindowEquiv w t0 m m :=
  fun _ _ _ => rfl

/-- Helper: symmetry of window-equivalence. -/
theorem windowEquiv_symm {w t0 : Int} {m1 m2 : RequestsMap}
    (h : WindowEquiv w t0 m1 m2) : WindowEquiv w t0 m2 m1 :=
  fun k n hn => (h k n hn).symm

/-- Helper: transitivity of window-equivalence. -/
theorem windowEquiv_trans {w t0 : Int} {m1 m2 m3 : RequestsMap}
    (h1 : WindowEquiv w t0 m1 m2) (h2 : WindowEquiv w t0 m2 m3) :
    WindowEquiv w t0 m1 m3 :=
  fun k n hn => (h1 k n hn).trans (h2 k n hn)

/-- Helper: window-equivalence weakens to later base instants. -/
theorem windowEquiv_mono {w t0 t1 : Int} {m1 m2 : RequestsMap} (h01 : t0 ≤ t1)
    (h : WindowEquiv w t0 m1 m2) : WindowEquiv w t1 m1 m2 :=
  fun k n hn => h k n (le_trans h01 hn)

/-- Helper: a conditional purge of one side is window-equivalent to that
side at the purge instant. -/
theorem windowEquiv_condPurge (w now : Int) (c : Prop) [Decidable c]
    (m : RequestsMap) (h : KeysNodup m) :
    WindowEquiv w now (if c then purgeAgedKeys w now m else m) m := by
  split
  · exact windowEquiv_purgeAgedKeys w now m h
  · exact windowEquiv_refl w now m

/-- Helper: key distinctness survives a conditional purge. -/
theorem keysNodup_condPurge (w now : Int) (c : Prop) [Decidable c]
    (m : RequestsMap) (h : KeysNodup m) :
    KeysNodup (if c then purgeAgedKeys w now m else m) := by
  split
  · exact keysNodup_filter m _ h
  · exact h

/-- Helper (simulation step): one admit call on two window-equivalent,
key-distinct maps yields the same decision and window-equivalent,
key-distinct successor maps, with the equivalence base moved to the call
instant. -/
theorem windowEquiv_step (w : Int) (cap thr : Nat) (k : String) (t0 now : Int)
    (m1 m2 : RequestsMap) (he : WindowEquiv w t0 m1 m2)
    (h1 : KeysNodup m1) (h2 : KeysNodup m2) (ht : t0 ≤ now) :
    (slidingWindowAdmit w cap thr m1 k now).1 =
      (slidingWindowAdmit w cap thr m2 k now).1 ∧
    WindowEquiv w now (slidingWindowAdmit w cap thr m1 k now).2
      (slidingWindowAdmit w cap thr m2 k now).2 ∧
    KeysNodup (slidingWindowAdmit w cap thr m1 k now).2 ∧
    KeysNodup (slidingWindowAdmit w cap thr m2 k now).2 := by
  have hfr : pruneWindow w now (getRequests m1 k) =
      pruneWindow w now (getRequests m2 k) := he k now ht
  by_cases hcap : cap ≤ (pruneWindow w now (getRequests m1 k)).length
  · have hcap2 : cap ≤ (pruneWindow w now (getRequests m2 k)).length := hfr ▸ hcap
    simp only [slidingWindowAdmit, if_pos hcap, if_pos hcap2]
    exact ⟨trivial, windowEquiv_mono ht he, h1, h2⟩
  · have hcap2 : ¬ cap ≤ (pruneWindow w now (getRequests m2 k)).length := by
      rw [← hfr]; exact hcap
    have he' : WindowEquiv w now
        (setRequests m1 k (pruneWindow w now (getRequests m1 k) ++ [now]))
        (setRequests m2 k (pruneWindow w now (getRequests m2 k) ++ [now])) := by
      intro k'' n'' hn''
      by_cases hk : k'' = k
      · subst hk
        rw [getRequests_setRequests_self, getRequests_setRequests_self, hfr]
      · rw [getRequests_setRequests_ne m1 k k'' _ hk,
          getRequests_setRequests_ne m2 k k'' _ hk]
        exact he k'' n'' (le_trans ht hn'')
    have hn1 : KeysNodup (setRequests m1 k
        (pruneWindow w now (getRequests m1 k) ++ [now])) :=
      keysNodup_setRequests m1 k _ h1
    have hn2 : KeysNodup (setRequests m2 k
        (pruneWindow w now (getRequests m2 k) ++ [now])) :=
      keysNodup_setRequests m2 k _ h2
    simp only [slidingWindowAdmit, if_neg hcap, if_neg hcap2]
    refine ⟨trivial, ?_, ?_, ?_⟩
    · exact windowEquiv_trans
        (windowEquiv_condPurge w now _ _ hn1)
        (windowEquiv_trans he' (windowEquiv_symm (windowEquiv_condPurge w now _ _ hn2)))
    · exact keysNodup_condPurge w now _ _ hn1
    · exact keysNodup_condPurge w now _ _ hn2

/-- Helper (simulation): running any nondecreasing admit trace starting no
earlier than the equivalence base on two window-equivalent, key-distinct
maps produces identical decision sequences. -/
theorem runAdmits_decisions_eq (w : Int) (cap thr : Nat) :
    ∀ (calls : List (String × Int)) (m1 m2 : RequestsMap) (t0 : Int),
      WindowEquiv w t0 m1 m2 → KeysNodup m1 → KeysNodup m2 →
      List.Chain (fun a b => a ≤ b) t0 (calls.map Prod.snd) →
      (runAdmits w cap thr m1 calls).1 = (runAdmits w cap thr m2 calls).1 := by
  intro calls
  induction calls with
  | nil => intro m1 m2 t0 _ _ _ _; rfl
  | cons c rest ih =>
    intro m1 m2 t0 he h1 h2 hchain
    obtain ⟨k, n⟩ := c
    simp only [List.map_cons, List.chain_cons] at hchain
    have hstep := windowEquiv_step w cap thr k t0 n m1 m2 he h1 h2 hchain.1
    simp only [runAdmits]
    rw [hstep.1, ih _ _ n hstep.2.1 hstep.2.2.1 hstep.2.2.2 hchain.2]

/-- Claim C9: the size-triggered memory purge removes only keys whose
every recorded timestamp has aged out of the window, and for any
subsequent sequence of admit calls (at instants no earlier than the purge
and nondecreasing, i.e. a monotone clock) the Admitted/RateExceeded
decisions are identical to what they would have been had the purge not
run — the purge affects the memory footprint only, never a decision. -/
theorem purge_never_changes_decisions (w : Int) (cap thr : Nat)
    (m : RequestsMap) (t0 : Int) (calls : List (String × Int))
    (hnd : KeysNodup m)
    (hchain : List.Chain (fun a b => a ≤ b) t0 (calls.map Prod.snd)) :
    (runAdmits w cap thr (purgeAgedKeys w t0 m) calls).1 =
      (runAdmits w cap thr m calls).1 :=
  runAdmits_decisions_eq w cap thr calls (purgeAgedKeys w t0 m) m t0
    (windowEquiv_purgeAgedKeys w t0 m hnd)
    (keysNodup_filter m _ hnd) hnd hchain

/-- Witness for C9: purging at instant 200000 a map whose key `old` has
fully aged out (timestamp 100000, window 60 s) does not change the
decisions of two later admit calls. -/
theorem purge_never_changes_decisions_witness :
    (runAdmits 60000 5 10000
        (purgeAgedKeys 60000 200000 [("old", [100000]), ("k", [190000])])
        [("old", 200010), ("k", 200020)]).1 =
      (runAdmits 60000 5 10000 [("old", [100000]), ("k", [190000])]
        [("old", 200010), ("k", 200020)]).1 :=
  purge_never_changes_decisions 60000 5 10000 [("old", [100000]), ("k", [190000])]
    200000 [("old", 200010), ("k", 200020)] (by decide)
    (List.Chain.cons (by decide) (List.Chain.cons (by decide) List.Chain.nil))

/-- Claim C2 counterexample: a rotation performed within the same whole
second as the presented token's `iat` regenerates a byte-identical
refresh token (the JWT payload, `iat`, `exp` and secret all coincide and
HS256 signing is deterministic), so after the first redemption the
"superseded" token still byte-equals the stored value and the second
`verifyRefreshToken` succeeds instead of failing with
`RevokedCredential`. -/
theorem refresh_replay_within_same_second :
    (generateTokensAndSetCookies [dave] dave 100).2.1 = dtok ∧
    verifyRefreshToken [dave] 200 (some dtok) = .ok dave ∧
    verifyRefreshToken (generateTokensAndSetCookies [dave] dave 100).2.2 200
      (some dtok) = .ok dave := by
  decide
